import Mathlib

/-!
Verification of the contact-assistant program (main.py): a shallow embedding
of its data model (Record, AddressBook), its calendar arithmetic (modelling
the Python datetime.date semantics used by the source: proleptic Gregorian
ordinals, Monday = weekday 0), and its operations, together with theorems
about the birthday-window computation and the phone-list operations.
-/

set_option autoImplicit false

namespace Assistant

/-- A calendar date, as in Python datetime.date: year, month (1..12), day. -/
structure Date where
  year : Nat
  month : Nat
  day : Nat
deriving DecidableEq

/-- Gregorian leap-year rule, as in the Python calendar. -/
def isLeap (y : Nat) : Bool :=
  (y % 4 == 0 && y % 100 != 0) || y % 400 == 0

/-- Number of days in a month of a given year (0 for out-of-range months). -/
def daysInMonth (y m : Nat) : Nat :=
  match m with
  | 1 => 31
  | 2 => if isLeap y then 29 else 28
  | 3 => 31
  | 4 => 30
  | 5 => 31
  | 6 => 30
  | 7 => 31
  | 8 => 31
  | 9 => 30
  | 10 => 31
  | 11 => 30
  | 12 => 31
  | _ => 0

/-- Days in a year. -/
def daysInYear (y : Nat) : Nat := if isLeap y then 366 else 365

/-- Cumulative days before month m in year y (the lookup table used by
calendar ordinal computations). -/
def daysBeforeMonth (y m : Nat) : Nat :=
  let l := if isLeap y then 1 else 0
  match m with
  | 1 => 0
  | 2 => 31
  | 3 => 59 + l
  | 4 => 90 + l
  | 5 => 120 + l
  | 6 => 151 + l
  | 7 => 181 + l
  | 8 => 212 + l
  | 9 => 243 + l
  | 10 => 273 + l
  | 11 => 304 + l
  | 12 => 334 + l
  | _ => 0

/-- Days in all years strictly before year y (years count from 1): the
closed form used by the Python datetime module. -/
def daysBeforeYear (y : Nat) : Nat :=
  365 * (y - 1) + (y - 1) / 4 - (y - 1) / 100 + (y - 1) / 400

/-- Proleptic Gregorian ordinal of a date; date 0001-01-01 has ordinal 1,
exactly as Python date.toordinal. -/
def toOrdinal (d : Date) : Nat :=
  daysBeforeYear d.year + daysBeforeMonth d.year d.month + d.day

/-- Weekday of a date, Monday = 0 .. Sunday = 6, as Python date.weekday. -/
def weekday (d : Date) : Nat := (toOrdinal d + 6) % 7

/-- Date validity: the constraints enforced by the Python date constructor
(year at least 1, month 1..12, day within the month). -/
def Date.valid (d : Date) : Bool :=
  decide (1 ≤ d.year) && decide (1 ≤ d.month) && decide (d.month ≤ 12) &&
  decide (1 ≤ d.day) && decide (d.day ≤ daysInMonth d.year d.month)

/-- Successor date (the day after), for valid dates. -/
def nextDay (d : Date) : Date :=
  if d.day < daysInMonth d.year d.month then ⟨d.year, d.month, d.day + 1⟩
  else if d.month < 12 then ⟨d.year, d.month + 1, 1⟩
  else ⟨d.year + 1, 1, 1⟩

/-- Adding n days to a date (modelling Python timedelta addition). -/
def addDays : Nat → Date → Date
  | 0, d => d
  | n + 1, d => addDays n (nextDay d)

theorem daysInYear_eq (y : Nat) :
    daysInYear y = if (y % 4 = 0 ∧ y % 100 ≠ 0) ∨ y % 400 = 0 then 366 else 365 := by
  have hiff : isLeap y = true ↔ (y % 4 = 0 ∧ y % 100 ≠ 0) ∨ y % 400 = 0 := by
    simp [isLeap]
  cases h : isLeap y
  · rw [h] at hiff
    simp only [Bool.false_eq_true, false_iff] at hiff
    rw [daysInYear, h, if_neg hiff]
    rfl
  · rw [h] at hiff
    simp only [true_iff] at hiff
    rw [daysInYear, h, if_pos hiff]
    rfl

theorem daysBeforeYear_succ (y : Nat) (hy : 1 ≤ y) :
    daysBeforeYear (y + 1) = daysBeforeYear y + daysInYear y := by
  rw [daysInYear_eq]
  unfold daysBeforeYear
  rw [Nat.add_sub_cancel]
  by_cases h4 : y % 4 = 0 <;> by_cases h100 : y % 100 = 0 <;> by_cases h400 : y % 400 = 0
  · have e4 : y / 4 = (y - 1) / 4 + 1 := by clear h100 h400; omega
    have e100 : y / 100 = (y - 1) / 100 + 1 := by clear h4 h400; omega
    have e400 : y / 400 = (y - 1) / 400 + 1 := by clear h4 h100; omega
    rw [if_pos (Or.inr h400), e4, e100, e400]
    clear h4 h100 h400
    omega
  · have e4 : y / 4 = (y - 1) / 4 + 1 := by clear h100 h400; omega
    have e100 : y / 100 = (y - 1) / 100 + 1 := by clear h4 h400; omega
    have e400 : y / 400 = (y - 1) / 400 := by clear h4 h100; omega
    rw [if_neg (by tauto), e4, e100, e400]
    clear h4 h100 h400
    omega
  · exact absurd (show y % 100 = 0 by clear h4 h100; omega) h100
  · have e4 : y / 4 = (y - 1) / 4 + 1 := by clear h100 h400; omega
    have e100 : y / 100 = (y - 1) / 100 := by clear h4 h400; omega
    have e400 : y / 400 = (y - 1) / 400 := by clear h4 h100; omega
    rw [if_pos (Or.inl ⟨h4, h100⟩), e4, e100, e400]
    clear h4 h100 h400
    omega
  · exact absurd (show y % 4 = 0 by clear h4 h400; omega) h4
  · exact absurd (show y % 4 = 0 by clear h4 h400; omega) h4
  · exact absurd (show y % 4 = 0 by clear h4 h100; omega) h4
  · have e4 : y / 4 = (y - 1) / 4 := by clear h100 h400; omega
    have e100 : y / 100 = (y - 1) / 100 := by clear h4 h400; omega
    have e400 : y / 400 = (y - 1) / 400 := by clear h4 h100; omega
    rw [if_neg (by tauto), e4, e100, e400]
    clear h4 h100 h400
    omega

theorem valid_iff (d : Date) :
    d.valid = true ↔
      1 ≤ d.year ∧ 1 ≤ d.month ∧ d.month ≤ 12 ∧ 1 ≤ d.day ∧
        d.day ≤ daysInMonth d.year d.month := by
  simp [Date.valid, and_assoc]

theorem one_le_daysInMonth (y m : Nat) (h1 : 1 ≤ m) (h2 : m ≤ 12) :
    1 ≤ daysInMonth y m := by
  interval_cases m <;> cases hL : isLeap y <;> simp [daysInMonth, hL]

theorem daysBeforeMonth_succ (y m : Nat) (h1 : 1 ≤ m) (h2 : m ≤ 11) :
    daysBeforeMonth y (m + 1) = daysBeforeMonth y m + daysInMonth y m := by
  interval_cases m <;> cases hL : isLeap y <;>
    simp [daysBeforeMonth, daysInMonth, hL]

theorem nextDay_valid (d : Date) (h : d.valid = true) : (nextDay d).valid = true := by
  rw [valid_iff] at h
  obtain ⟨hy, hm1, hm2, hd1, hd2⟩ := h
  rw [valid_iff]
  unfold nextDay
  split
  · rename_i hlt
    refine ⟨hy, hm1, hm2, ?_, ?_⟩ <;> dsimp only <;> omega
  · split
    · rename_i hlt hm12
      refine ⟨hy, ?_, ?_, ?_, ?_⟩ <;> dsimp only
      · omega
      · omega
      · omega
      · exact one_le_daysInMonth _ _ (by omega) (by omega)
    · refine ⟨?_, ?_, ?_, ?_, ?_⟩ <;> dsimp only
      · omega
      · omega
      · omega
      · omega
      · cases hL : isLeap (d.year + 1) <;> simp [daysInMonth]

theorem toOrdinal_nextDay (d : Date) (h : d.valid = true) :
    toOrdinal (nextDay d) = toOrdinal d + 1 := by
  rw [valid_iff] at h
  obtain ⟨hy, hm1, hm2, hd1, hd2⟩ := h
  unfold nextDay
  split
  · unfold toOrdinal
    dsimp only
    omega
  · split
    · rename_i hlt hm12
      unfold toOrdinal
      dsimp only
      have hstep := daysBeforeMonth_succ d.year d.month hm1 (by omega)
      omega
    · rename_i hlt hm12
      have hm : d.month = 12 := by omega
      have hde : d.day = 31 := by
        rw [hm] at hd2 hlt
        have h31 : daysInMonth d.year 12 = 31 := rfl
        omega
      unfold toOrdinal
      dsimp only
      rw [daysBeforeYear_succ _ hy, hm, hde]
      have h1 : daysBeforeMonth (d.year + 1) 1 = 0 := rfl
      have h2 : daysBeforeMonth d.year 12 = 334 + (if isLeap d.year then 1 else 0) := rfl
      have h3 : daysInYear d.year = if isLeap d.year then 366 else 365 := rfl
      rw [h1, h2, h3]
      cases hL : isLeap d.year <;> simp [hL]

theorem addDays_valid (n : Nat) (d : Date) (h : d.valid = true) :
    (addDays n d).valid = true := by
  induction n generalizing d with
  | zero => exact h
  | succ n ih => exact ih _ (nextDay_valid d h)

theorem toOrdinal_addDays (n : Nat) (d : Date) (h : d.valid = true) :
    toOrdinal (addDays n d) = toOrdinal d + n := by
  induction n generalizing d with
  | zero => rfl
  | succ n ih =>
    have := ih (nextDay d) (nextDay_valid d h)
    rw [addDays, this, toOrdinal_nextDay d h]
    omega

theorem weekday_addDays (n : Nat) (d : Date) (h : d.valid = true) :
    weekday (addDays n d) = (weekday d + n) % 7 := by
  unfold weekday
  rw [toOrdinal_addDays n d h]
  omega

/-- Split a character list at every dot (the separators of the fixed
DD.MM.YYYY pattern). -/
def splitDot : List Char → List (List Char)
  | [] => [[]]
  | c :: cs =>
    if c = '.' then [] :: splitDot cs
    else
      match splitDot cs with
      | [] => [[c]]
      | p :: ps => (c :: p) :: ps

/-- Numeric value of a list of decimal digit characters. -/
def digitsToNat (cs : List Char) : Nat :=
  cs.foldl (fun a c => a * 10 + (c.toNat - 48)) 0

/-- Parsing a date against the fixed pattern day.month.year, modelling
datetime.strptime with that format: one or two digits of day and month,
exactly four digits of year, dots as separators, and the resulting values
must form a real calendar date. Returns none on any parse failure. -/
def parseDate (s : String) : Option Date :=
  match splitDot s.data with
  | [ds, ms, ys] =>
    if 1 ≤ ds.length ∧ ds.length ≤ 2 ∧ ds.all Char.isDigit = true ∧
       1 ≤ ms.length ∧ ms.length ≤ 2 ∧ ms.all Char.isDigit = true ∧
       ys.length = 4 ∧ ys.all Char.isDigit = true then
      let dd : Date := ⟨digitsToNat ys, digitsToNat ms, digitsToNat ds⟩
      if dd.valid = true then some dd else none
    else none
  | _ => none

/-- Two-digit zero-padded rendering of a number below 100. -/
def fmt2 (n : Nat) : String :=
  if n < 10 then "0" ++ toString n else toString n

/-- Four-digit zero-padded rendering of a year. -/
def fmt4 (n : Nat) : String :=
  if n < 10 then "000" ++ toString n
  else if n < 100 then "00" ++ toString n
  else if n < 1000 then "0" ++ toString n
  else toString n

/-- Rendering of a date in the DD.MM.YYYY pattern, modelling strftime with
that format. -/
def fmtDate (d : Date) : String :=
  fmt2 d.day ++ "." ++ fmt2 d.month ++ "." ++ fmt4 d.year

/-- A contact record: a name, an ordered phone list, and an optional
birthday stored as its original DD.MM.YYYY text, as in the source. -/
structure Record where
  name : String
  phones : List String
  birthday : Option String
deriving DecidableEq

/-- Index of the first occurrence of an element in a list, as the Python
list index method computes it for a present element. -/
def listIndex (a : String) : List String → Nat
  | [] => 0
  | x :: xs => if x = a then 0 else listIndex a xs + 1

/-- Record.add_phone: rejects only a missing (None) phone, then appends. -/
def Record.add_phone (r : Record) (phone : Option String) : Except String Record :=
  match phone with
  | none => .error "Phone is required field."
  | some p => .ok { r with phones := r.phones ++ [p] }

/-- Record.remove_phone: removes the first matching entry if present. -/
def Record.remove_phone (r : Record) (phone : String) : Record :=
  if phone ∈ r.phones then { r with phones := r.phones.erase phone } else r

/-- Record.edit_phone: fails if the old phone is absent, then if the new
phone is missing (None); otherwise overwrites the slot of the first
occurrence of the old phone. -/
def Record.edit_phone (r : Record) (old_phone : String) (new_phone : Option String) :
    Except String Record :=
  if old_phone ∉ r.phones then .error "Phone number not found."
  else
    match new_phone with
    | none => .error "Phone is required field."
    | some np => .ok { r with phones := r.phones.set (listIndex old_phone r.phones) np }

/-- Record.add_birthday: validates the text against the DD.MM.YYYY pattern
and stores the text itself on success. -/
def Record.add_birthday (r : Record) (birthday : String) : Except String Record :=
  match parseDate birthday with
  | some _ => .ok { r with birthday := some birthday }
  | none => .error "Invalid date format. Use DD.MM.YYYY"

/-- The address book: its record collection in insertion order, modelling
the Python dict from name to record (keys are the record names). -/
structure AddressBook where
  data : List Record
deriving DecidableEq

/-- Lookup of the record stored under a name in a record list (the dict get
of the source, over the insertion-ordered entries with unique names). -/
def findRec (name : String) : List Record → Option Record
  | [] => none
  | x :: xs => if x.name = name then some x else findRec name xs

/-- AddressBook.find: the record stored under a name, if any. -/
def AddressBook.find (book : AddressBook) (name : String) : Option Record :=
  findRec name book.data

/-- AddressBook.add_record: insert or overwrite under the record name
(dict assignment keeps the position of an existing key). -/
def AddressBook.add_record (book : AddressBook) (r : Record) : AddressBook :=
  match findRec r.name book.data with
  | some _ => ⟨book.data.map (fun x => if x.name = r.name then r else x)⟩
  | none => ⟨book.data ++ [r]⟩

/-- AddressBook.delete: remove the record stored under a name. -/
def AddressBook.delete (book : AddressBook) (name : String) : AddressBook :=
  ⟨book.data.filter (fun x => x.name != name)⟩

/-- The replace(year) operation of a Python date: keep month and day,
substitute the year, and raise if the result is not a real date (for
instance February 29 in a non-leap year). -/
def replaceYearE (d : Date) (y : Nat) : Except String Date :=
  if (Date.mk y d.month d.day).valid = true then .ok ⟨y, d.month, d.day⟩
  else .error "day is out of range for month"

/-- The candidate congratulation base date: the birthday re-anchored onto
the current year, or onto the next year when that first candidate is
strictly before today. -/
def candidateOf (today : Date) (bd : Date) : Except String Date :=
  match replaceYearE bd today.year with
  | .error e => .error e
  | .ok c0 =>
    if toOrdinal c0 < toOrdinal today then replaceYearE c0 (today.year + 1)
    else .ok c0

/-- The weekend adjustment: a candidate on Saturday (weekday 5) or Sunday
(weekday 6) is pushed forward by 7 minus its weekday index days. -/
def rollWeekend (c : Date) : Date :=
  if weekday c = 5 ∨ weekday c = 6 then addDays (7 - weekday c) c else c

/-- Processing of one record inside get_upcoming_birthdays: skip records
without a birthday, parse the stored text, compute the candidate, and emit
the name with the weekend-adjusted congratulation date when the delta in
days from today lies in 0..7. Raised date errors propagate. -/
def processRecord (today : Date) (r : Record) : Except String (Option (String × Date)) :=
  match r.birthday with
  | none => .ok none
  | some b =>
    match parseDate b with
    | none => .error "time data does not match format"
    | some bd =>
      match candidateOf today bd with
      | .error e => .error e
      | .ok c =>
        if toOrdinal today ≤ toOrdinal c ∧ toOrdinal c ≤ toOrdinal today + 7 then
          .ok (some (r.name, rollWeekend c))
        else .ok none

/-- The record loop of get_upcoming_birthdays over a record list, rendering
each emitted congratulation date in the DD.MM.YYYY pattern. -/
def upcomingAux (today : Date) : List Record → Except String (List (String × String))
  | [] => .ok []
  | r :: rs =>
    match processRecord today r with
    | .error e => .error e
    | .ok none => upcomingAux today rs
    | .ok (some (n, c)) =>
      match upcomingAux today rs with
      | .error e => .error e
      | .ok l => .ok ((n, fmtDate c) :: l)

/-- AddressBook.get_upcoming_birthdays, with today supplied explicitly (the
source reads the current day from the clock): the list of pairs of name and
congratulation date over the records in insertion order, or the raised
error. -/
def AddressBook.get_upcoming_birthdays (book : AddressBook) (today : Date) :
    Except String (List (String × String)) :=
  upcomingAux today book.data

/-- The birthdays command: the input_error wrapper turns a raised date error
into its message, an empty result into the distinguished no-birthdays line,
and otherwise joins one line per entry. -/
def AddressBook.get_birthdays (book : AddressBook) (today : Date) : String :=
  match book.get_upcoming_birthdays today with
  | .error e => e
  | .ok [] => "No upcoming birthdays in the next week."
  | .ok entries =>
    String.intercalate "\n"
      (entries.map (fun e => e.1 ++ ": congratulate on " ++ e.2))

/-- AddressBook.add_contact on an argument list: with a name and a phone it
finds or creates the record, appends the non-empty phone, and reports
whether the contact was added or updated; with fewer arguments the wrapper
reports the usage message. -/
def AddressBook.add_contact (book : AddressBook) (args : List String) :
    AddressBook × String :=
  match args with
  | name :: phone :: _ =>
    match book.find name with
    | some _ =>
      if phone = "" then (book, "Contact updated.")
      else
        (⟨book.data.map (fun x =>
            if x.name = name then { x with phones := x.phones ++ [phone] } else x)⟩,
          "Contact updated.")
    | none =>
      (book.add_record ⟨name, if phone = "" then [] else [phone], none⟩,
        "Contact added.")
  | _ => (book, "Provide name and at least one phone number.")

/-- AddressBook.save_to_file, modelling the pickle serialization of the
record graph: the persisted blob is the full field content of every record
in order. -/
def AddressBook.save_to_file (book : AddressBook) :
    List (String × List String × Option String) :=
  book.data.map (fun r => (r.name, r.phones, r.birthday))

/-- AddressBook.load_from_file, modelling pickle deserialization of a saved
blob back into an address book. -/
def AddressBook.load_from_file (blob : List (String × List String × Option String)) :
    AddressBook :=
  ⟨blob.map (fun t => Record.mk t.1 t.2.1 t.2.2)⟩

theorem listIndex_getElem (a : String) (l : List String) (h : a ∈ l) :
    l[listIndex a l]? = some a := by
  induction l with
  | nil => cases h
  | cons x xs ih =>
    by_cases hx : x = a
    · simp [listIndex, hx]
    · have hm : a ∈ xs := by
        cases h with
        | head => exact absurd rfl hx
        | tail _ h2 => exact h2
      simp [listIndex, hx, ih hm]

theorem listIndex_lt_length (a : String) (l : List String) (h : a ∈ l) :
    listIndex a l < l.length := by
  induction l with
  | nil => cases h
  | cons x xs ih =>
    by_cases hx : x = a
    · simp [listIndex, hx]
    · have hm : a ∈ xs := by
        cases h with
        | head => exact absurd rfl hx
        | tail _ h2 => exact h2
      have hlt := ih hm
      simp only [listIndex, hx, if_false, List.length_cons]
      omega

theorem listIndex_first (a : String) (l : List String) :
    ∀ j, j < listIndex a l → l[j]? ≠ some a := by
  induction l with
  | nil => intro j hj; simp [listIndex] at hj
  | cons x xs ih =>
    intro j hj
    by_cases hx : x = a
    · simp [listIndex, hx] at hj
    · rw [listIndex, if_neg hx] at hj
      cases j with
      | zero => simpa using hx
      | succ j =>
        have := ih j (by omega)
        simpa using this

theorem saveLoad_list (data : List Record) :
    (data.map (fun r => (r.name, r.phones, r.birthday))).map
      (fun t => Record.mk t.1 t.2.1 t.2.2) = data := by
  induction data with
  | nil => rfl
  | cons r rs ih => simp [ih]

/-- C4: saving an address book to storage and loading it back reproduces an
equal address book: the same names in the same order, with every record
keeping its phone list (order included) and its birthday. -/
theorem c4_save_load_round_trip (book : AddressBook) :
    AddressBook.load_from_file book.save_to_file = book := by
  cases book with
  | mk data =>
    unfold AddressBook.save_to_file AddressBook.load_from_file
    exact congrArg AddressBook.mk (saveLoad_list data)

/-- C5: edit_phone with an absent old phone always fails with the not-found
error, for every contact and every replacement argument; no new record
state is produced, so the phone list is untouched. -/
theorem c5_edit_phone_absent (r : Record) (old : String) (np : Option String)
    (h : old ∉ r.phones) :
    r.edit_phone old np = .error "Phone number not found." := by
  unfold Record.edit_phone
  rw [if_pos h]

theorem c5_edit_phone_absent_witness :
    ("222" : String) ∉ (Record.mk "bob" ["111"] none).phones ∧
      (Record.mk "bob" ["111"] none).edit_phone "222" (some "333") =
        .error "Phone number not found." :=
  ⟨by decide, c5_edit_phone_absent (Record.mk "bob" ["111"] none) "222" (some "333")
    (by decide)⟩

/-- C6 counterexample: add_phone with an empty-string phone does not fail;
it appends the empty string to the phone list, contradicting the claim that
an empty phone is always rejected with a validation error. -/
theorem c6_add_phone_empty_cex :
    (Record.mk "alice" ["111"] none).add_phone (some "") =
      .ok (Record.mk "alice" ["111", ""] none) := rfl

/-- C6 amended: add_phone of a missing (None) phone always fails with the
validation error and produces no new state, while add_phone of any present
string, the empty string included, appends it at the end of the list. -/
theorem c6_add_phone_amended :
    (∀ r : Record, r.add_phone none = .error "Phone is required field.") ∧
    ∀ (r : Record) (p : String),
      r.add_phone (some p) = .ok (Record.mk r.name (r.phones ++ [p]) r.birthday) :=
  ⟨fun _ => rfl, fun _ _ => rfl⟩

/-- C7 counterexample: edit_phone with a present old phone and an
empty-string new phone does not fail with a validation error; it replaces
the old phone with the empty string. -/
theorem c7_edit_phone_empty_cex :
    (Record.mk "alice" ["111"] none).edit_phone "111" (some "") =
      .ok (Record.mk "alice" [""] none) := rfl

/-- C7 amended: for a contact whose list contains the old phone, edit_phone
with a missing (None) new phone fails with the validation error and leaves
the list unchanged, while edit_phone with any string new phone (the empty
string included) overwrites exactly the slot of the first occurrence of the
old phone: the indexed slot held the old phone, no earlier slot did, the
slot now holds the new phone, every other slot is unchanged, and the length
is unchanged. -/
theorem c7_edit_phone_present (r : Record) (old : String)
    (h : old ∈ r.phones) :
    r.edit_phone old none = .error "Phone is required field." ∧
    ∀ np : String,
      r.edit_phone old (some np) =
        .ok (Record.mk r.name (r.phones.set (listIndex old r.phones) np) r.birthday) ∧
      r.phones[listIndex old r.phones]? = some old ∧
      (∀ j, j < listIndex old r.phones → r.phones[j]? ≠ some old) ∧
      (r.phones.set (listIndex old r.phones) np)[listIndex old r.phones]? = some np ∧
      (∀ j, j ≠ listIndex old r.phones →
        (r.phones.set (listIndex old r.phones) np)[j]? = r.phones[j]?) ∧
      (r.phones.set (listIndex old r.phones) np).length = r.phones.length := by
  have hnn : ¬ old ∉ r.phones := fun hc => hc h
  constructor
  · unfold Record.edit_phone
    rw [if_neg hnn]
  · intro np
    refine ⟨?_, listIndex_getElem old r.phones h, listIndex_first old r.phones, ?_, ?_, ?_⟩
    · unfold Record.edit_phone
      rw [if_neg hnn]
    · exact List.getElem?_set_eq_of_lt np (listIndex_lt_length old r.phones h)
    · intro j hj
      exact List.getElem?_set_ne (fun he => hj he.symm)
    · exact List.length_set r.phones _ np

theorem findRec_map_update (l : List Record) (name phone : String) :
    findRec name (l.map (fun x =>
      if x.name = name then Record.mk x.name (x.phones ++ [phone]) x.birthday
      else x)) =
    (findRec name l).map
      (fun r => Record.mk r.name (r.phones ++ [phone]) r.birthday) := by
  induction l with
  | nil => rfl
  | cons x xs ih =>
    rw [List.map_cons]
    by_cases hx : x.name = name
    · rw [if_pos hx]
      rw [findRec, if_pos (show (Record.mk x.name (x.phones ++ [phone]) x.birthday).name = name from hx)]
      rw [findRec, if_pos hx]
      rfl
    · rw [if_neg hx]
      rw [findRec, if_neg hx, findRec, if_neg hx]
      exact ih

theorem findRec_map_update_other (l : List Record) (name phone n : String)
    (hne : n ≠ name) :
    findRec n (l.map (fun x =>
      if x.name = name then Record.mk x.name (x.phones ++ [phone]) x.birthday
      else x)) =
    findRec n l := by
  induction l with
  | nil => rfl
  | cons x xs ih =>
    rw [List.map_cons]
    by_cases hx : x.name = name
    · have hxn : ¬ x.name = n := fun hc => hne (hc.symm.trans hx)
      rw [if_pos hx]
      rw [findRec, if_neg (show ¬ (Record.mk x.name (x.phones ++ [phone]) x.birthday).name = n from hxn)]
      rw [findRec, if_neg hxn]
      exact ih
    · rw [if_neg hx]
      by_cases hxn : x.name = n
      · rw [findRec, if_pos hxn, findRec, if_pos hxn]
      · rw [findRec, if_neg hxn, findRec, if_neg hxn]
        exact ih

theorem findRec_append_single (l : List Record) (r : Record) (name : String)
    (hl : findRec name l = none) (hr : r.name = name) :
    findRec name (l ++ [r]) = some r := by
  induction l with
  | nil => rw [List.nil_append, findRec, if_pos hr]
  | cons x xs ih =>
    rw [findRec] at hl
    by_cases hx : x.name = name
    · rw [if_pos hx] at hl
      cases hl
    · rw [if_neg hx] at hl
      rw [List.cons_append, findRec, if_neg hx]
      exact ih hl

theorem findRec_append_single_other (l : List Record) (r : Record) (n : String)
    (hr : ¬ r.name = n) :
    findRec n (l ++ [r]) = findRec n l := by
  induction l with
  | nil => simp only [List.nil_append, findRec, if_neg hr]
  | cons x xs ih =>
    rw [List.cons_append, findRec, findRec]
    by_cases hx : x.name = n
    · rw [if_pos hx, if_pos hx]
    · rw [if_neg hx, if_neg hx]
      exact ih

theorem weekday_lt_seven (d : Date) : weekday d < 7 := by
  unfold weekday
  omega

theorem replaceYearE_ok (d : Date) (y : Nat) (c : Date)
    (h : replaceYearE d y = .ok c) :
    c.valid = true ∧ c = ⟨y, d.month, d.day⟩ := by
  unfold replaceYearE at h
  by_cases hv : (Date.mk y d.month d.day).valid = true
  · rw [if_pos hv] at h
    cases h
    exact ⟨hv, rfl⟩
  · rw [if_neg hv] at h
    cases h

theorem candidateOf_ok_valid (today bd c : Date)
    (h : candidateOf today bd = .ok c) : c.valid = true := by
  unfold candidateOf at h
  cases h0 : replaceYearE bd today.year with
  | error e => rw [h0] at h; cases h
  | ok c0 =>
    rw [h0] at h
    dsimp only at h
    by_cases hlt : toOrdinal c0 < toOrdinal today
    · rw [if_pos hlt] at h
      exact (replaceYearE_ok _ _ _ h).1
    · rw [if_neg hlt] at h
      cases h
      exact (replaceYearE_ok _ _ _ h0).1

theorem rollWeekend_eq_of_weekend (c : Date) (hw : weekday c = 5 ∨ weekday c = 6) :
    rollWeekend c = addDays (7 - weekday c) c := by
  unfold rollWeekend
  rw [if_pos hw]

theorem rollWeekend_weekday_lt (c : Date) (hv : c.valid = true) :
    weekday (rollWeekend c) < 5 ∧ (rollWeekend c).valid = true := by
  unfold rollWeekend
  by_cases hw : weekday c = 5 ∨ weekday c = 6
  · rw [if_pos hw]
    refine ⟨?_, addDays_valid _ _ hv⟩
    rw [weekday_addDays _ _ hv]
    rcases hw with hw | hw <;> rw [hw] <;> norm_num
  · rw [if_neg hw]
    push_neg at hw
    have h7 := weekday_lt_seven c
    exact ⟨by omega, hv⟩

theorem processRecord_emits (today : Date) (r : Record) (b : String) (bd c : Date)
    (hb : r.birthday = some b) (hp : parseDate b = some bd)
    (hc : candidateOf today bd = .ok c)
    (hw : toOrdinal today ≤ toOrdinal c ∧ toOrdinal c ≤ toOrdinal today + 7) :
    processRecord today r = .ok (some (r.name, rollWeekend c)) := by
  unfold processRecord
  rw [hb]
  dsimp only
  rw [hp]
  dsimp only
  rw [hc]
  dsimp only
  rw [if_pos hw]

theorem processRecord_some_inv (today : Date) (r : Record) (n : String) (c : Date)
    (h : processRecord today r = .ok (some (n, c))) :
    ∃ b bd c0, r.birthday = some b ∧ parseDate b = some bd ∧
      candidateOf today bd = .ok c0 ∧
      toOrdinal today ≤ toOrdinal c0 ∧ toOrdinal c0 ≤ toOrdinal today + 7 ∧
      n = r.name ∧ c = rollWeekend c0 := by
  unfold processRecord at h
  cases hb : r.birthday with
  | none => rw [hb] at h; cases h
  | some b =>
    rw [hb] at h
    dsimp only at h
    cases hp : parseDate b with
    | none => rw [hp] at h; cases h
    | some bd =>
      rw [hp] at h
      dsimp only at h
      cases hc : candidateOf today bd with
      | error e => rw [hc] at h; cases h
      | ok c0 =>
        rw [hc] at h
        dsimp only at h
        by_cases hw : toOrdinal today ≤ toOrdinal c0 ∧ toOrdinal c0 ≤ toOrdinal today + 7
        · rw [if_pos hw] at h
          cases h
          exact ⟨b, bd, c0, rfl, hp, hc, hw.1, hw.2, rfl, rfl⟩
        · rw [if_neg hw] at h
          cases h

theorem upcomingAux_mem (today : Date) (rs : List Record)
    (l : List (String × String)) (r : Record) (n : String) (c : Date)
    (hok : upcomingAux today rs = .ok l) (hr : r ∈ rs)
    (hp : processRecord today r = .ok (some (n, c))) :
    (n, fmtDate c) ∈ l := by
  induction rs generalizing l with
  | nil => cases hr
  | cons x xs ih =>
    cases hr with
    | head =>
      simp only [upcomingAux, hp] at hok
      cases hrest : upcomingAux today xs with
      | error e => rw [hrest] at hok; cases hok
      | ok l2 =>
        rw [hrest] at hok
        cases hok
        exact List.mem_cons_self _ _
    | tail _ hmem =>
      cases hx : processRecord today x with
      | error e =>
        simp only [upcomingAux, hx] at hok
        cases hok
      | ok oval =>
        cases oval with
        | none =>
          simp only [upcomingAux, hx] at hok
          exact ih _ hok hmem
        | some nc =>
          obtain ⟨n2, c2⟩ := nc
          simp only [upcomingAux, hx] at hok
          cases hrest : upcomingAux today xs with
          | error e => rw [hrest] at hok; cases hok
          | ok l2 =>
            rw [hrest] at hok
            cases hok
            exact List.mem_cons_of_mem _ (ih _ hrest hmem)

theorem upcomingAux_all (today : Date) (rs : List Record)
    (l : List (String × String))
    (hok : upcomingAux today rs = .ok l) :
    ∀ e ∈ l, ∃ r ∈ rs, ∃ n c, processRecord today r = .ok (some (n, c)) ∧
      e = (n, fmtDate c) := by
  induction rs generalizing l with
  | nil =>
    cases hok
    intro e he
    cases he
  | cons x xs ih =>
    intro e he
    cases hx : processRecord today x with
    | error e2 =>
      simp only [upcomingAux, hx] at hok
      cases hok
    | ok oval =>
      cases oval with
      | none =>
        simp only [upcomingAux, hx] at hok
        obtain ⟨r, hr, n, c, hpr, hec⟩ := ih _ hok e he
        exact ⟨r, List.mem_cons_of_mem _ hr, n, c, hpr, hec⟩
      | some nc =>
        obtain ⟨n2, c2⟩ := nc
        simp only [upcomingAux, hx] at hok
        cases hrest : upcomingAux today xs with
        | error e2 => rw [hrest] at hok; cases hok
        | ok l2 =>
          rw [hrest] at hok
          cases hok
          cases he with
          | head => exact ⟨x, List.mem_cons_self _ _, n2, c2, hx, rfl⟩
          | tail _ hmem =>
            obtain ⟨r, hr, n, c, hpr, hec⟩ := ih _ hrest e hmem
            exact ⟨r, List.mem_cons_of_mem _ hr, n, c, hpr, hec⟩

theorem upcomingAux_singleton (today : Date) (r : Record) (n : String) (c : Date)
    (h : processRecord today r = .ok (some (n, c))) :
    upcomingAux today [r] = .ok [(n, fmtDate c)] := by
  simp only [upcomingAux, h]

theorem upcomingAux_error_of_mem (today : Date) (rs : List Record) (r : Record)
    (m : String) (hr : r ∈ rs) (he : processRecord today r = .error m) :
    ∃ msg, upcomingAux today rs = .error msg := by
  induction rs with
  | nil => cases hr
  | cons x xs ih =>
    cases hx : processRecord today x with
    | error e => exact ⟨e, by simp only [upcomingAux, hx]⟩
    | ok oval =>
      have hmem : r ∈ xs := by
        cases hr with
        | head => rw [he] at hx; cases hx
        | tail _ hmem => exact hmem
      obtain ⟨msg, hmsg⟩ := ih hmem
      cases oval with
      | none => exact ⟨msg, by simp only [upcomingAux, hx]; exact hmsg⟩
      | some nc =>
        obtain ⟨n2, c2⟩ := nc
        exact ⟨msg, by simp only [upcomingAux, hx, hmsg]⟩

/-- C1: whenever the candidate date of a contact lies 0..7 days from today
and falls on a Saturday (weekday 5) or Sunday (weekday 6), the emitted
congratulation date is the candidate pushed forward by 7 minus its weekday
index days, and that date lies at most 9 days after today — so a weekend
candidate on day 7 of the window is still emitted with a congratulation
date up to 2 days beyond the 7-day cutoff. -/
theorem c1_weekend_roll (book : AddressBook) (today : Date) (r : Record)
    (b : String) (bd c : Date) (l : List (String × String))
    (hr : r ∈ book.data) (hb : r.birthday = some b) (hp : parseDate b = some bd)
    (hc : candidateOf today bd = .ok c)
    (hw1 : toOrdinal today ≤ toOrdinal c) (hw2 : toOrdinal c ≤ toOrdinal today + 7)
    (hwk : weekday c = 5 ∨ weekday c = 6)
    (hok : book.get_upcoming_birthdays today = .ok l) :
    (r.name, fmtDate (addDays (7 - weekday c) c)) ∈ l ∧
    toOrdinal (addDays (7 - weekday c) c) ≤ toOrdinal today + 9 := by
  have hv := candidateOf_ok_valid today bd c hc
  have hemit := processRecord_emits today r b bd c hb hp hc ⟨hw1, hw2⟩
  rw [rollWeekend_eq_of_weekend c hwk] at hemit
  constructor
  · exact upcomingAux_mem today book.data l r r.name (addDays (7 - weekday c) c)
      hok hr hemit
  · rw [toOrdinal_addDays _ _ hv]
    rcases hwk with hwk | hwk <;> rw [hwk] <;> omega

theorem c1_weekend_roll_witness :
    ("name", fmtDate (addDays (7 - weekday ⟨2024, 1, 13⟩) ⟨2024, 1, 13⟩)) ∈
        [("name", "15.01.2024")] ∧
      toOrdinal (addDays (7 - weekday ⟨2024, 1, 13⟩) ⟨2024, 1, 13⟩) ≤
        toOrdinal ⟨2024, 1, 6⟩ + 9 :=
  c1_weekend_roll ⟨[⟨"name", [], some "13.01.1990"⟩]⟩ ⟨2024, 1, 6⟩
    ⟨"name", [], some "13.01.1990"⟩ "13.01.1990" ⟨1990, 1, 13⟩ ⟨2024, 1, 13⟩
    [("name", "15.01.2024")] (by decide) rfl rfl rfl (by decide) (by decide)
    (by decide) rfl

/-- C2: with today being Monday 01.01.2024 and a single contact whose
stored birthday parses to January 6 of any year, the birthday query emits
exactly one entry for that contact with congratulation date 08.01.2024 (the
candidate 06.01.2024 is a Saturday at delta 5, rolled to Monday). -/
theorem c2_concrete_scenario (nm b : String) (ps : List String) (y : Nat)
    (hp : parseDate b = some ⟨y, 1, 6⟩) :
    AddressBook.get_upcoming_birthdays ⟨[⟨nm, ps, some b⟩]⟩ ⟨2024, 1, 1⟩ =
      .ok [(nm, "08.01.2024")] := by
  have hre : replaceYearE ⟨y, 1, 6⟩ 2024 = .ok ⟨2024, 1, 6⟩ := rfl
  have hcd : candidateOf ⟨2024, 1, 1⟩ ⟨y, 1, 6⟩ = .ok ⟨2024, 1, 6⟩ := by
    unfold candidateOf
    rw [hre]
    dsimp only
    rw [if_neg (by decide)]
  have h1 : processRecord ⟨2024, 1, 1⟩ ⟨nm, ps, some b⟩ =
      .ok (some (nm, rollWeekend ⟨2024, 1, 6⟩)) :=
    processRecord_emits ⟨2024, 1, 1⟩ ⟨nm, ps, some b⟩ b ⟨y, 1, 6⟩ ⟨2024, 1, 6⟩
      rfl hp hcd (by decide)
  rw [show rollWeekend ⟨2024, 1, 6⟩ = ⟨2024, 1, 8⟩ from by decide] at h1
  show upcomingAux ⟨2024, 1, 1⟩ [⟨nm, ps, some b⟩] = _
  rw [upcomingAux_singleton _ _ _ _ h1]
  rfl

theorem c2_concrete_scenario_witness :
    parseDate "06.01.1995" = some ⟨1995, 1, 6⟩ ∧
      AddressBook.get_upcoming_birthdays ⟨[⟨"name", [], some "06.01.1995"⟩]⟩
        ⟨2024, 1, 1⟩ = .ok [("name", "08.01.2024")] :=
  ⟨rfl, c2_concrete_scenario "name" "06.01.1995" [] 1995 rfl⟩

/-- C3: when the birthday re-anchored onto the current year is strictly
before today, the candidate is re-anchored onto the next year instead, a
contact is emitted only when the candidate delta from today is 0..7 days,
and in the concrete end-of-year scenario (today 20.12.2024, birthday 05.01)
the candidate becomes 05.01.2025 at delta 16, so the contact is excluded. -/
theorem c3_reanchor_next_year (today bd c0 : Date)
    (h0 : replaceYearE bd today.year = .ok c0)
    (hlt : toOrdinal c0 < toOrdinal today) :
    candidateOf today bd = replaceYearE c0 (today.year + 1) ∧
    (∀ (r : Record) (b n : String) (c : Date),
      r.birthday = some b → parseDate b = some bd →
      processRecord today r = .ok (some (n, c)) →
      ∃ c1, candidateOf today bd = .ok c1 ∧
        toOrdinal today ≤ toOrdinal c1 ∧ toOrdinal c1 ≤ toOrdinal today + 7) ∧
    (AddressBook.get_upcoming_birthdays ⟨[⟨"name", [], some "05.01.1990"⟩]⟩
        ⟨2024, 12, 20⟩ = .ok [] ∧
      candidateOf ⟨2024, 12, 20⟩ ⟨1990, 1, 5⟩ = .ok ⟨2025, 1, 5⟩ ∧
      toOrdinal ⟨2025, 1, 5⟩ - toOrdinal ⟨2024, 12, 20⟩ = 16) := by
  refine ⟨?_, ?_, rfl, rfl, by decide⟩
  · unfold candidateOf
    rw [h0]
    dsimp only
    rw [if_pos hlt]
  · intro r b n c hb hp hpr
    obtain ⟨b2, bd2, c1, hb2, hp2, hc1, hd1, hd2, _, _⟩ :=
      processRecord_some_inv today r n c hpr
    rw [hb] at hb2
    cases hb2
    rw [hp] at hp2
    cases hp2
    exact ⟨c1, hc1, hd1, hd2⟩

theorem c3_reanchor_next_year_witness :
    candidateOf ⟨2024, 12, 20⟩ ⟨1990, 1, 5⟩ = replaceYearE ⟨2024, 1, 5⟩ 2025 ∧
      AddressBook.get_upcoming_birthdays ⟨[⟨"name", [], some "05.01.1990"⟩]⟩
        ⟨2024, 12, 20⟩ = .ok [] := by
  have h := c3_reanchor_next_year ⟨2024, 12, 20⟩ ⟨1990, 1, 5⟩ ⟨2024, 1, 5⟩
    rfl (by decide)
  exact ⟨h.1, h.2.2.1⟩

/-- C9: every entry emitted by the birthday query carries a congratulation
date that is a valid date falling on Monday through Friday — never on a
Saturday or Sunday. -/
theorem c9_no_weekend_emission (book : AddressBook) (today : Date)
    (l : List (String × String))
    (hok : book.get_upcoming_birthdays today = .ok l) :
    ∀ e ∈ l, ∃ c : Date, c.valid = true ∧ weekday c < 5 ∧ e.2 = fmtDate c := by
  intro e he
  obtain ⟨r, hr, n, c, hpr, hec⟩ := upcomingAux_all today book.data l hok e he
  obtain ⟨b, bd, c0, hb, hp, hc, hd1, hd2, hn, hcr⟩ :=
    processRecord_some_inv today r n c hpr
  have hv := candidateOf_ok_valid today bd c0 hc
  have hroll := rollWeekend_weekday_lt c0 hv
  refine ⟨c, ?_, ?_, by rw [hec]⟩
  · rw [hcr]
    exact hroll.2
  · rw [hcr]
    exact hroll.1

theorem c9_no_weekend_emission_witness :
    ∃ c : Date, c.valid = true ∧ weekday c < 5 ∧
      (("name", "08.01.2024") : String × String).2 = fmtDate c :=
  c9_no_weekend_emission ⟨[⟨"name", [], some "06.01.1990"⟩]⟩ ⟨2024, 1, 1⟩
    [("name", "08.01.2024")] rfl ("name", "08.01.2024") (by decide)

/-- C10: a stored birthday of February 29 makes the re-anchoring step raise
the date-construction error whenever today falls in a non-leap year, so the
whole birthday query fails and the birthdays command reports the error
message instead of any listing, even when other contacts would qualify. -/
theorem c10_feb29_error (book : AddressBook) (today : Date) (r : Record)
    (b : String) (y : Nat)
    (hr : r ∈ book.data) (hb : r.birthday = some b)
    (hp : parseDate b = some ⟨y, 2, 29⟩)
    (hleap : isLeap today.year = false) :
    processRecord today r = .error "day is out of range for month" ∧
    ∃ msg, book.get_upcoming_birthdays today = .error msg ∧
      book.get_birthdays today = msg := by
  have hdim : daysInMonth today.year 2 = 28 := by
    have he : daysInMonth today.year 2 = if isLeap today.year then 29 else 28 := rfl
    rw [he, hleap]
    rfl
  have hval : (Date.mk today.year 2 29).valid = false := by
    unfold Date.valid
    dsimp only
    rw [hdim]
    simp
  have hrv : replaceYearE ⟨y, 2, 29⟩ today.year =
      .error "day is out of range for month" := by
    unfold replaceYearE
    dsimp only
    rw [if_neg (by rw [hval]; exact Bool.false_ne_true)]
  have hcand : candidateOf today ⟨y, 2, 29⟩ =
      .error "day is out of range for month" := by
    unfold candidateOf
    rw [hrv]
  have hpr : processRecord today r = .error "day is out of range for month" := by
    unfold processRecord
    rw [hb]
    dsimp only
    rw [hp]
    dsimp only
    rw [hcand]
  obtain ⟨msg, hmsg⟩ := upcomingAux_error_of_mem today book.data r _ hr hpr
  refine ⟨hpr, msg, hmsg, ?_⟩
  unfold AddressBook.get_birthdays
  rw [show book.get_upcoming_birthdays today = .error msg from hmsg]

theorem c10_feb29_error_witness :
    processRecord ⟨2025, 3, 1⟩ ⟨"a", [], some "29.02.2020"⟩ =
        .error "day is out of range for month" ∧
      ∃ msg,
        AddressBook.get_upcoming_birthdays
          ⟨[⟨"a", [], some "29.02.2020"⟩, ⟨"b", [], some "05.03.1990"⟩]⟩
          ⟨2025, 3, 1⟩ = .error msg ∧
        AddressBook.get_birthdays
          ⟨[⟨"a", [], some "29.02.2020"⟩, ⟨"b", [], some "05.03.1990"⟩]⟩
          ⟨2025, 3, 1⟩ = msg :=
  c10_feb29_error
    ⟨[⟨"a", [], some "29.02.2020"⟩, ⟨"b", [], some "05.03.1990"⟩]⟩
    ⟨2025, 3, 1⟩ ⟨"a", [], some "29.02.2020"⟩ "29.02.2020" 2020
    (by decide) rfl rfl rfl

/-- C8: a well-formed add command with a name and a non-empty phone appends
the phone to the existing record when the name is already stored, keeping
its name, prior phones and birthday, and reports the contact as updated;
with a new name it creates a record holding exactly that phone and reports
the contact as added; records under other names are untouched either way. -/
theorem c8_add_contact (book : AddressBook) (name phone : String)
    (rest : List String) (hphone : phone ≠ "") :
    (∀ r, book.find name = some r →
      (book.add_contact (name :: phone :: rest)).2 = "Contact updated." ∧
      (book.add_contact (name :: phone :: rest)).1.find name =
        some (Record.mk r.name (r.phones ++ [phone]) r.birthday) ∧
      ∀ n, n ≠ name →
        (book.add_contact (name :: phone :: rest)).1.find n = book.find n) ∧
    (book.find name = none →
      (book.add_contact (name :: phone :: rest)).2 = "Contact added." ∧
      (book.add_contact (name :: phone :: rest)).1.find name =
        some (Record.mk name [phone] none) ∧
      ∀ n, n ≠ name →
        (book.add_contact (name :: phone :: rest)).1.find n = book.find n) := by
  constructor
  · intro r hf
    have hstep : book.add_contact (name :: phone :: rest) =
        (⟨book.data.map (fun x =>
          if x.name = name then Record.mk x.name (x.phones ++ [phone]) x.birthday
          else x)⟩, "Contact updated.") := by
      unfold AddressBook.add_contact
      dsimp only
      rw [hf]
      dsimp only
      rw [if_neg hphone]
    rw [hstep]
    refine ⟨rfl, ?_, ?_⟩
    · show findRec name _ = _
      rw [findRec_map_update book.data name phone]
      rw [show findRec name book.data = some r from hf]
      rfl
    · intro n hn
      show findRec n _ = _
      exact findRec_map_update_other book.data name phone n hn
  · intro hf
    have hstep : book.add_contact (name :: phone :: rest) =
        (⟨book.data ++ [Record.mk name [phone] none]⟩, "Contact added.") := by
      unfold AddressBook.add_contact
      dsimp only
      rw [hf]
      dsimp only
      rw [if_neg hphone]
      unfold AddressBook.add_record
      dsimp only
      rw [show findRec name book.data = none from hf]
    rw [hstep]
    refine ⟨rfl, ?_, ?_⟩
    · show findRec name _ = _
      exact findRec_append_single book.data _ name hf rfl
    · intro n hn
      show findRec n _ = _
      exact findRec_append_single_other book.data _ n (fun hc => hn hc.symm)

theorem c8_add_contact_witness :
    (("ann" : String) ≠ "") ∧
    (AddressBook.find ⟨[Record.mk "bob" ["1"] none]⟩ "bob" =
      some (Record.mk "bob" ["1"] none)) ∧
    ((AddressBook.add_contact ⟨[Record.mk "bob" ["1"] none]⟩ ["bob", "2"]).2 =
      "Contact updated.") ∧
    ((AddressBook.add_contact ⟨[Record.mk "bob" ["1"] none]⟩ ["bob", "2"]).1.find "bob" =
      some (Record.mk "bob" ["1", "2"] none)) ∧
    ((AddressBook.add_contact ⟨[Record.mk "bob" ["1"] none]⟩ ["ann", "7"]).2 =
      "Contact added.") := by
  have h1 := (c8_add_contact ⟨[Record.mk "bob" ["1"] none]⟩ "bob" "2" []
    (by decide)).1 (Record.mk "bob" ["1"] none) (by decide)
  have h2 := (c8_add_contact ⟨[Record.mk "bob" ["1"] none]⟩ "ann" "7" []
    (by decide)).2 (by decide)
  exact ⟨by decide, by decide, h1.1, h1.2.1, h2.1⟩

theorem c7_edit_phone_present_witness :
    ("111" : String) ∈ (Record.mk "alice" ["111", "222"] none).phones ∧
      (Record.mk "alice" ["111", "222"] none).edit_phone "111" (some "333") =
        .ok (Record.mk "alice" ["333", "222"] none) := by
  refine ⟨by decide, ?_⟩
  have h := (c7_edit_phone_present (Record.mk "alice" ["111", "222"] none) "111"
    (by decide)).2 "333"
  exact h.1

end Assistant
